import Mathlib

/-!
Verification development for the grblHAL serial controller
(`grblhal_controller.py`).

The Python code is shallowly embedded: Python strings become `List Char`,
Python floats become exact decimal numbers (wrapped in `PyFloat`, which
also has the `inf`, `-inf` and `nan` values `float()` can produce), and the
stateful serial I/O becomes explicit data: an incoming byte stream is a
list of optional chunks (one entry per 0.1 s poll of the 3 s response
window), telemetry is a function from polling ticks to the optional text
returned by the status query, and the wall clock of `run_test_routine` is
counted in polling ticks of 0.1 s (so the 95 s timeout is 950 ticks and
the 1 s + 2 s settling sleeps before homing are 30 ticks).  Wire writes
are collected in explicit lists.  Serial-layer exceptions (modelled
nowhere in the claims) are outside the embedding.
-/

namespace Grbl

/-! ## Characters and strings -/

/-- Python `str.lower()` (the device traffic is ASCII). -/
def lowerL (l : List Char) : List Char := l.map Char.toLower

/-- Python `str.upper()`. -/
def pyUpper (l : List Char) : List Char := l.map Char.toUpper

def isWs (c : Char) : Bool := c.isWhitespace

/-- Python `str.strip()`: remove leading and trailing whitespace. -/
def pyStripL (l : List Char) : List Char :=
  ((l.dropWhile isWs).reverse.dropWhile isWs).reverse

/-- Does `l` start with `pat`?  (Boolean prefix test.) -/
def startsWith : List Char → List Char → Bool
  | [], _ => true
  | _ :: _, [] => false
  | p :: ps, c :: cs => p == c && startsWith ps cs

/-- Index of the first occurrence of `pat` in `l`; models Python
`str.index` / the `in` substring test. -/
def firstIdx? (pat : List Char) : List Char → Option ℕ
  | [] => if startsWith pat [] then some 0 else none
  | l@(_ :: t) =>
    if startsWith pat l then some 0 else (firstIdx? pat t).map (· + 1)

/-- Python `str.split(sep)` for a one-character separator. -/
def splitSep (sep : Char) : List Char → List (List Char)
  | [] => [[]]
  | c :: t =>
    let r := splitSep sep t
    if c = sep then [] :: r else (c :: r.headD []) :: r.tail

/-! ## Python numbers -/

/-- An exact decimal number `m / 10 ^ e`.  Python floats produced by this
program come from decimal literals and are modelled exactly by such
pairs. -/
structure Dec where
  m : ℤ
  e : ℕ
deriving DecidableEq

def pow10 : ℕ → ℤ
  | 0 => 1
  | n + 1 => 10 * pow10 n

/-- Strip factors of ten shared by the mantissa and the exponent, so that
the decimal representation is the shortest one (the first argument is
recursion fuel, instantiated with the exponent). -/
def stripDec : ℕ → ℤ → ℕ → Dec
  | 0, m, e => ⟨m, e⟩
  | fuel + 1, m, e =>
    if e = 0 then ⟨m, e⟩
    else if m % 10 = 0 then stripDec fuel (m / 10) (e - 1) else ⟨m, e⟩

/-- Canonical form of `m / 10 ^ e` (shortest decimal expansion). -/
def normDec (m : ℤ) (e : ℕ) : Dec := stripDec e m e

/-- A Python float: an exact decimal, or one of the special values that
`float()` can return. -/
inductive PyFloat
  | finite (d : Dec)
  | inf
  | neginf
  | nan
deriving DecidableEq

/-- A value stored in `self.feed_rate`: the initial `1000` is a Python
int, every later value is a Python float. -/
inductive PyNum
  | int (n : ℤ)
  | float (f : PyFloat)
deriving DecidableEq

/-- An argument value as passed from Python call sites. -/
inductive PyVal
  | int (n : ℤ)
  | float (f : PyFloat)
  | str (s : List Char)
deriving DecidableEq

/-- Python `==` on floats: exact value comparison (`nan` is not equal to
anything, including itself). -/
def pyEq : PyFloat → PyFloat → Bool
  | .finite a, .finite b => a.m * pow10 b.e == b.m * pow10 a.e
  | .inf, .inf => true
  | .neginf, .neginf => true
  | _, _ => false

def digitsVal (l : List Char) : ℕ :=
  l.foldl (fun a c => a * 10 + (c.toNat - 48)) 0

/-- Decimal part of Python `float(str)`: parses `d* [. d*] [(e|E)[±]d+]`
with at least one mantissa digit (sign and whitespace already removed;
digit-group underscores are not modelled). -/
def pyFloatCore (l : List Char) : Option Dec :=
  let ip := l.takeWhile Char.isDigit
  let r1 := l.dropWhile Char.isDigit
  let fp := match r1 with
    | '.' :: t => t.takeWhile Char.isDigit
    | _ => []
  let r2 := match r1 with
    | '.' :: t => t.dropWhile Char.isDigit
    | _ => r1
  if ip.isEmpty && fp.isEmpty then none
  else
    let mm : ℤ := (digitsVal ip : ℤ) * pow10 fp.length + (digitsVal fp : ℤ)
    let me : ℕ := fp.length
    match r2 with
    | [] => some ⟨mm, me⟩
    | e :: r3 =>
      if e = 'e' ∨ e = 'E' then
        let p := match r3 with
          | '+' :: t => (false, t)
          | '-' :: t => (true, t)
          | t => (false, t)
        if p.2.isEmpty then none
        else if p.2.all Char.isDigit then
          some (if p.1 then ⟨mm, me + digitsVal p.2⟩
                else ⟨mm * pow10 (digitsVal p.2), me⟩)
        else none
      else none

/-- Python `float(str)`: strip whitespace, take an optional sign, accept
the special words `inf` / `infinity` / `nan`, else parse a decimal
(stored in canonical shortest form).  `none` models `ValueError`. -/
def pyFloat? (s : List Char) : Option PyFloat :=
  let l := pyStripL s
  let p := match l with
    | '+' :: t => (false, t)
    | '-' :: t => (true, t)
    | t => (false, t)
  let low := lowerL p.2
  if low = String.toList "inf" ∨ low = String.toList "infinity" then
    some (if p.1 then .neginf else .inf)
  else if low = String.toList "nan" then some .nan
  else
    (pyFloatCore p.2).map (fun d =>
      .finite (normDec (if p.1 then -d.m else d.m) d.e))

/-- Python `float(x)` on an arbitrary argument. -/
def pyFloatOf : PyVal → Option PyFloat
  | .int n => some (.finite ⟨n, 0⟩)
  | .float f => some f
  | .str s => pyFloat? s

def decDigit : ℕ → Char
  | 0 => '0' | 1 => '1' | 2 => '2' | 3 => '3' | 4 => '4'
  | 5 => '5' | 6 => '6' | 7 => '7' | 8 => '8' | _ => '9'

def natDigitsAux : ℕ → ℕ → List Char
  | 0, _ => []
  | fuel + 1, n =>
    if n < 10 then [decDigit n]
    else natDigitsAux fuel (n / 10) ++ [decDigit (n % 10)]

/-- Decimal digits of a natural number, most significant first. -/
def natDigits (n : ℕ) : List Char := natDigitsAux (n + 1) n

def padZeros (k : ℕ) (l : List Char) : List Char :=
  List.replicate (k - l.length) '0' ++ l

/-- Python `str(float)` on an exact decimal value: the shortest decimal
expansion, with at least one digit after the point (`str(4000.0)` is
`"4000.0"`). -/
def decStr (d : Dec) : List Char :=
  let c := normDec d.m d.e
  let k := max 1 c.e
  let m := (c.m * pow10 (k - c.e)).natAbs
  let s := padZeros (k + 1) (natDigits m)
  (if c.m < 0 then [ '-' ] else []) ++
    (s.take (s.length - k) ++ '.' :: s.drop (s.length - k))

/-- Python `str` of a float value. -/
def pyFloatStr : PyFloat → List Char
  | .finite d => decStr d
  | .inf => String.toList "inf"
  | .neginf => String.toList "-inf"
  | .nan => String.toList "nan"

def intStr (n : ℤ) : List Char :=
  (if n < 0 then [ '-' ] else []) ++ natDigits n.natAbs

/-- Python `str` of the stored feed-rate value (int or float). -/
def pyNumStr : PyNum → List Char
  | .int n => intStr n
  | .float f => pyFloatStr f

/-! ## Transaction engine (`send_command`) -/

def okTok : List Char := String.toList "ok"

def errTok : List Char := String.toList "error"

/-- The break test of the read loop:
`'ok' in response.lower() or 'error' in response.lower()`. -/
def hasToken (l : List Char) : Bool :=
  (firstIdx? okTok (lowerL l)).isSome || (firstIdx? errTok (lowerL l)).isSome

/-- The read loop of `send_command`: one list entry per 0.1 s poll inside
the 3 s window (`none` when `in_waiting` was zero); each arriving chunk
is appended to the accumulator and the whole buffer is re-scanned; the
loop stops at the first poll after which the buffer holds a token. -/
def readResponse : List (Option (List Char)) → List Char → List Char
  | [], acc => acc
  | none :: rest, acc => readResponse rest acc
  | some d :: rest, acc =>
    if hasToken (acc ++ d) then acc ++ d else readResponse rest (acc ++ d)

/-- Everything the link delivered during the window (what the buffer
holds when the deadline elapses with no token). -/
def accumRecv : List (Option (List Char)) → List Char
  | [] => []
  | none :: rest => accumRecv rest
  | some d :: rest => d ++ accumRecv rest

/-- Delimiter normalization of `send_command`: append `'\n'` when the
command does not already end with it. -/
def sentOf (cmd : List Char) : List Char :=
  if cmd.getLast? = some '\n' then cmd else cmd ++ [ '\n' ]

/-- Observable outcome of one `send_command` call: the returned value
(`none` models Python `None`) and the list of wire writes it performed. -/
structure SendOut where
  resp : Option (List Char)
  writes : List (List Char)
deriving DecidableEq

/-- `send_command`: refuse when not connected (return `None`, write
nothing); otherwise write the normalized command and return the stripped
accumulated response. -/
def send_command (connected : Bool) (cmd : List Char)
    (chunks : List (Option (List Char))) : SendOut :=
  if connected then
    ⟨some (pyStripL (readResponse chunks [])), [sentOf cmd]⟩
  else ⟨none, []⟩

/-- The spec's `TransactionResult` variants. -/
inductive TransactionResult
  | Ok (text : List Char)
  | Err (text : List Char)
  | Timeout (text : List Char)
deriving DecidableEq

/-- Modelled from the spec: classification of a transaction from the
accumulated response text — `Ok` when a (case-insensitive) `ok` occurs
before any `error`, `Err` when an `error` occurs and no `ok` precedes
it, `Timeout` when neither token is present. -/
def specClassify (s : List Char) : TransactionResult :=
  match firstIdx? okTok (lowerL s), firstIdx? errTok (lowerL s) with
  | some i, some j => if i < j then .Ok s else .Err s
  | some _, none => .Ok s
  | none, some _ => .Err s
  | none, none => .Timeout s

/-! ## Telemetry parser (`get_current_position`) -/

def mposTok : List Char := String.toList "MPos:"

/-- The Python exceptions the parser's `try` block can raise. -/
inductive PyExc
  | valueErr
  | indexErr
deriving DecidableEq

/-- The body of the parser's `try` block, with each fallible Python step
made explicit: `response.index('|', pos_start)` raises `ValueError` when
no `'|'` follows the position list, `positions[1]` / `positions[2]`
raise `IndexError`, and `float(...)` raises `ValueError`. -/
def parsePosInner (s : List Char) : Except PyExc (PyFloat × PyFloat) :=
  match firstIdx? mposTok s with
  | none => .error .valueErr
  | some i =>
    let tail := s.drop (i + 5)
    match firstIdx? [ '|' ] tail with
    | none => .error .valueErr
    | some j =>
      let parts := splitSep ',' (tail.take j)
      match parts.get? 1 with
      | none => .error .indexErr
      | some p1 =>
        match pyFloat? p1 with
        | none => .error .valueErr
        | some y =>
          match parts.get? 2 with
          | none => .error .indexErr
          | some p2 =>
            match pyFloat? p2 with
            | none => .error .valueErr
            | some z => .ok (y, z)

/-- Position extraction from a status-response text: the `'MPos:' in
response` guard, then the `try` block with `except (ValueError,
IndexError)` returning `None`. -/
def get_position_of (s : List Char) : Option (PyFloat × PyFloat) :=
  if (firstIdx? mposTok s).isSome then
    match parsePosInner s with
    | .ok p => some p
    | .error _ => none
  else none

/-- `get_current_position` applied to the result of `send_command("?")`:
`None` propagates, an empty string is falsy, otherwise parse. -/
def get_current_position (r? : Option (List Char)) :
    Option (PyFloat × PyFloat) :=
  match r? with
  | none => none
  | some r => if r.isEmpty then none else get_position_of r

/-! ## Controller state and commands -/

/-- The mutable controller attributes the claims depend on:
`self.feed_rate`, initially the Python int `1000`. -/
structure CtrlState where
  feed : PyNum
deriving DecidableEq

def initState : CtrlState := ⟨.int 1000⟩

/-- `set_feed_rate`: `float(rate)` succeeds and is stored, or
`ValueError` leaves the state unchanged and returns `False`.  The last
component records wire writes — the body performs none. -/
def set_feed_rate (st : CtrlState) (rate : PyVal) :
    (Bool × CtrlState) × List (List Char) :=
  match pyFloatOf rate with
  | some f => ((true, ⟨.float f⟩), [])
  | none => ((false, st), [])

/-- `home_axes`: uppercase the argument, map `YZ`/`ZY` to `$H`, `Y` to
`$HY`, `Z` to `$HZ` (anything else: `False`, nothing sent), send, and
return `True` (the response is printed, not returned). -/
def home_axes (connected : Bool) (axes : List Char)
    (chunks : List (Option (List Char))) : Bool × List (List Char) :=
  let a := pyUpper axes
  if a = String.toList "YZ" ∨ a = String.toList "ZY" then
    (true, (send_command connected (String.toList "$H") chunks).writes)
  else if a = String.toList "Y" then
    (true, (send_command connected (String.toList "$HY") chunks).writes)
  else if a = String.toList "Z" then
    (true, (send_command connected (String.toList "$HZ") chunks).writes)
  else (false, [])

/-- `move_axis`: validate the axis (uppercased, `Y` or `Z` only), convert
the distance with `float`, then send `G0 <axis><distance>` for a rapid
move or `G1 <axis><distance> F<feed_rate>` for a feed move. -/
def move_axis (connected : Bool) (st : CtrlState) (axis : List Char)
    (dist : PyVal) (rapid : Bool) (chunks : List (Option (List Char))) :
    Bool × List (List Char) :=
  let a := pyUpper axis
  if a = [ 'Y' ] ∨ a = [ 'Z' ] then
    match pyFloatOf dist with
    | none => (false, [])
    | some d =>
      let cmd :=
        if rapid then String.toList "G0 " ++ a ++ pyFloatStr d
        else String.toList "G1 " ++ a ++ pyFloatStr d ++
          String.toList " F" ++ pyNumStr st.feed
      (true, (send_command connected cmd chunks).writes)
  else (false, [])

/-! ## Scan routine (`run_test_routine`) -/

/-- The routine's 95 s polling deadline, in 0.1 s ticks. -/
def TIMEOUT : ℕ := 950

/-- Tick at which `start_time` is taken: after `reset_controller`'s 1 s
sleep and the routine's 2 s sleep (command transmissions are idealized
as instantaneous; each polling-loop iteration costs one 0.1 s tick). -/
def routineStart : ℕ := 30

/-- The soft-reset byte `\x18` (Ctrl-X). -/
def ctrlX : Char := Char.ofNat 24

/-- One iteration's test: `pos is not None and pos["Y"] == ty and
pos["Z"] == tz`, where `pos` comes from parsing the status response the
environment delivers at tick `t`. -/
def posMatch (resp : ℕ → Option (List Char)) (ty tz : Dec) (t : ℕ) : Bool :=
  match get_current_position (resp t) with
  | some (y, z) => pyEq y (.finite ty) && pyEq z (.finite tz)
  | none => false

/-- One position-polling loop: `while time.time() - start_time < TIMEOUT`,
poll, break on match, else sleep one tick.  `st` is the `start_time` the
condition compares against, `now` the current tick; the fuel argument is
a modelling device and is always called with enough fuel for the
deadline to fire first. -/
def waitLoop (resp : ℕ → Option (List Char)) (ty tz : Dec) (st : ℕ) :
    ℕ → ℕ → ℕ
  | 0, now => now
  | fuel + 1, now =>
    if now - st < TIMEOUT then
      if posMatch resp ty tz now then now
      else waitLoop resp ty tz st fuel (now + 1)
    else now

/-- Observable outcome of `run_test_routine`: the motion/control line
commands written (status-query polls are modelled inside the wait
loops), the returned value, the finishing tick, and the tick at which
each of the four position-polling loops exited. -/
structure RoutineOut where
  cmds : List (List Char)
  ret : Bool
  endT : ℕ
  waitExits : List ℕ
deriving DecidableEq

/-- `run_test_routine`: connection check, soft reset, home `$H`, then the
homing wait, the approach move/wait, the scan move/wait and the return
move/wait.  `start_time` is taken once, at `routineStart`, and every
loop's deadline condition compares against it. -/
def run_test_routine (resp : ℕ → Option (List Char)) (connected : Bool)
    (st0 : CtrlState) (cam_height scan_speed init_pos scan_pos : Dec) :
    RoutineOut :=
  if connected then
    let w1 := [sentOf [ctrlX]]
    let w2 := [sentOf (String.toList "$H")]
    let st := routineStart
    let t1 := waitLoop resp ⟨0, 0⟩ ⟨0, 0⟩ st (TIMEOUT + 1) st
    let s1 := ((set_feed_rate st0 (.int 6000)).1).2
    let m1 := move_axis true s1 [ 'Y' ] (.float (.finite init_pos)) false []
    let t2 := waitLoop resp init_pos cam_height st (TIMEOUT + 1) t1
    let s2 := ((set_feed_rate s1 (.float (.finite scan_speed))).1).2
    let m2 := move_axis true s2 [ 'Y' ] (.float (.finite scan_pos)) false []
    let t3 := waitLoop resp scan_pos cam_height st (TIMEOUT + 1) t2
    let s3 := ((set_feed_rate s2 (.int 6000)).1).2
    let m3 := move_axis true s3 [ 'Y' ] (.float (.finite init_pos)) false []
    let t4 := waitLoop resp init_pos cam_height st (TIMEOUT + 1) t3
    ⟨w1 ++ w2 ++ m1.2 ++ m2.2 ++ m3.2, true, t4, [t1, t2, t3, t4]⟩
  else ⟨[], false, 0, []⟩

/-- What one position-polling loop of the routine observably did, given
that it started at tick `t0` and exited at tick `texit`: the loop kept
polling (one poll per tick, each a mismatch, each inside the shared
deadline window measured from `routineStart`) until its exit, and the
exit happened either because the shared deadline had expired or because
the position matched. -/
def WaitRun (resp : ℕ → Option (List Char)) (ty tz : Dec)
    (t0 texit : ℕ) : Prop :=
  t0 ≤ texit ∧
  (TIMEOUT ≤ texit - routineStart ∨ posMatch resp ty tz texit = true) ∧
  ∀ u, t0 ≤ u → u < texit →
    posMatch resp ty tz u = false ∧ u - routineStart < TIMEOUT

/-- A sample incoming byte stream: a banner chunk, then a chunk whose
arrival completes an `ok` token. -/
def chunksW : List (Option (List Char)) :=
  [none, some (String.toList "Grbl 1.1"), some (String.toList " ok\r\n")]

/-- The claim's "`ok` occurs before any `error`" (case-insensitive) on a
response text. -/
def okLeads (s : List Char) : Prop :=
  ∃ i, firstIdx? okTok (lowerL s) = some i ∧
    ∀ j, firstIdx? errTok (lowerL s) = some j → i < j

/-- The claim's "`error` occurs and no `ok` precedes it" on a response
text. -/
def errLeads (s : List Char) : Prop :=
  ∃ j, firstIdx? errTok (lowerL s) = some j ∧
    ∀ i, firstIdx? okTok (lowerL s) = some i → j < i

/-! ## Helper lemmas -/

theorem startsWith_append (pat l t : List Char)
    (h : startsWith pat l = true) : startsWith pat (l ++ t) = true := by
  induction pat generalizing l with
  | nil => simp [startsWith]
  | cons p ps ih =>
    cases l with
    | nil => simp [startsWith] at h
    | cons c cs =>
      simp only [startsWith, Bool.and_eq_true, beq_iff_eq] at h ⊢
      exact ⟨h.1, ih cs h.2⟩

theorem startsWith_self (l t : List Char) : startsWith l (l ++ t) = true := by
  induction l with
  | nil => simp [startsWith]
  | cons c cs ih => simp [startsWith, ih]

theorem startsWith_nil (pat : List Char)
    (h : startsWith pat [] = true) : pat = [] := by
  cases pat with
  | nil => rfl
  | cons p ps => simp [startsWith] at h

theorem firstIdx_cons (pat : List Char) (c : Char) (t : List Char) :
    firstIdx? pat (c :: t) =
      if startsWith pat (c :: t) then some 0
      else (firstIdx? pat t).map (· + 1) := rfl

theorem isSome_map_add (o : Option ℕ) : (o.map (· + 1)).isSome = o.isSome := by
  cases o <;> rfl

theorem firstIdx_isSome_append_left (pat s t : List Char)
    (h : (firstIdx? pat t).isSome = true) :
    (firstIdx? pat (s ++ t)).isSome = true := by
  induction s with
  | nil => simpa using h
  | cons c cs ih =>
    show (firstIdx? pat (c :: (cs ++ t))).isSome = true
    cases hs : startsWith pat (c :: (cs ++ t)) with
    | true => simp [firstIdx_cons, hs]
    | false =>
      rw [firstIdx_cons, if_neg (by simp [hs]), isSome_map_add]
      exact ih

theorem firstIdx_isSome_append_right (pat l t : List Char)
    (h : (firstIdx? pat l).isSome = true) :
    (firstIdx? pat (l ++ t)).isSome = true := by
  induction l with
  | nil =>
    cases hs : startsWith pat [] with
    | false => simp [firstIdx?, hs] at h
    | true =>
      have hp : pat = [] := startsWith_nil pat hs
      subst hp
      cases t with
      | nil => simpa [firstIdx?] using h
      | cons c cs => simp [firstIdx_cons, startsWith]
  | cons c cs ih =>
    cases hs : startsWith pat (c :: cs) with
    | true =>
      have h2 : startsWith pat ((c :: cs) ++ t) = true :=
        startsWith_append _ _ _ hs
      rw [List.cons_append] at h2
      show (firstIdx? pat (c :: (cs ++ t))).isSome = true
      simp [firstIdx_cons, h2]
    | false =>
      rw [firstIdx_cons, if_neg (by simp [hs]), isSome_map_add] at h
      show (firstIdx? pat (c :: (cs ++ t))).isSome = true
      cases hs2 : startsWith pat (c :: (cs ++ t)) with
      | true => simp [firstIdx_cons, hs2]
      | false =>
        rw [firstIdx_cons, if_neg (by simp [hs2]), isSome_map_add]
        exact ih h

theorem dropWhile_decomp (p : Char → Bool) (l : List Char) :
    ∃ u, l = u ++ l.dropWhile p := by
  induction l with
  | nil => exact ⟨[], rfl⟩
  | cons c cs ih =>
    by_cases hc : p c
    · obtain ⟨u, hu⟩ := ih
      refine ⟨c :: u, ?_⟩
      rw [List.dropWhile_cons_of_pos hc]
      simpa using hu
    · exact ⟨[], by rw [List.dropWhile_cons_of_neg hc]; rfl⟩

theorem lowerL_append (a b : List Char) :
    lowerL (a ++ b) = lowerL a ++ lowerL b := by
  simp [lowerL]

theorem pyStripL_decomp (l : List Char) :
    ∃ u v, l = u ++ pyStripL l ++ v := by
  obtain ⟨u, hu⟩ := dropWhile_decomp isWs l
  obtain ⟨w, hw⟩ := dropWhile_decomp isWs (l.dropWhile isWs).reverse
  refine ⟨u, w.reverse, ?_⟩
  have h1 : l.dropWhile isWs = pyStripL l ++ w.reverse := by
    have h2 := congrArg List.reverse hw
    simpa [pyStripL, List.reverse_append] using h2
  rw [h1] at hu
  rw [List.append_assoc]
  exact hu

theorem firstIdx_strip_none (pat l : List Char)
    (h : (firstIdx? pat (lowerL l)).isSome = false) :
    firstIdx? pat (lowerL (pyStripL l)) = none := by
  cases hm : firstIdx? pat (lowerL (pyStripL l)) with
  | none => rfl
  | some i =>
    exfalso
    obtain ⟨u, v, huv⟩ := pyStripL_decomp l
    have h1 : (firstIdx? pat (lowerL (pyStripL l))).isSome = true := by
      simp [hm]
    have h2 : (firstIdx? pat (lowerL (pyStripL l) ++ lowerL v)).isSome = true :=
      firstIdx_isSome_append_right _ _ _ h1
    have h3 :
        (firstIdx? pat (lowerL u ++ (lowerL (pyStripL l) ++ lowerL v))).isSome
          = true :=
      firstIdx_isSome_append_left _ _ _ h2
    have h4 : lowerL l = lowerL u ++ (lowerL (pyStripL l) ++ lowerL v) := by
      have h5 := congrArg lowerL huv
      rw [lowerL_append, lowerL_append, List.append_assoc] at h5
      exact h5
    rw [h4, h3] at h
    exact Bool.true_eq_false.mp h

/-- The read loop either exhausts the poll window with no token (and then
holds everything the link delivered), or stops at the first poll whose
chunk completed a token. -/
theorem readResponse_spec (chunks : List (Option (List Char))) :
    ∀ acc, hasToken acc = false →
    (hasToken (readResponse chunks acc) = false ∧
      readResponse chunks acc = acc ++ accumRecv chunks) ∨
    (∃ n, n ≤ chunks.length ∧
      readResponse chunks acc = acc ++ accumRecv (chunks.take n) ∧
      hasToken (readResponse chunks acc) = true ∧
      ∀ m, m < n → hasToken (acc ++ accumRecv (chunks.take m)) = false) := by
  induction chunks with
  | nil =>
    intro acc hacc
    left
    exact ⟨hacc, by simp [readResponse, accumRecv]⟩
  | cons c rest ih =>
    intro acc hacc
    cases c with
    | none =>
      have : readResponse (none :: rest) acc = readResponse rest acc := rfl
      rcases ih acc hacc with ⟨h1, h2⟩ | ⟨n, hn, heq, htok, hmin⟩
      · left
        exact ⟨by rwa [this], by rw [this, h2]; simp [accumRecv]⟩
      · right
        refine ⟨n + 1, by simpa using Nat.succ_le_succ hn, ?_, by rwa [this], ?_⟩
        · rw [this, heq]; simp [accumRecv]
        · intro m hm
          cases m with
          | zero => simpa [accumRecv] using hacc
          | succ m' =>
            simpa [accumRecv] using hmin m' (Nat.lt_of_succ_lt_succ hm)
    | some d =>
      cases htd : hasToken (acc ++ d) with
      | true =>
        have hr : readResponse (some d :: rest) acc = acc ++ d := by
          simp [readResponse, htd]
        right
        refine ⟨1, by simp, ?_, ?_, ?_⟩
        · rw [hr]; simp [accumRecv]
        · rwa [hr]
        · intro m hm
          have hm0 : m = 0 := by omega
          subst hm0
          simpa [accumRecv] using hacc
      | false =>
        have hr : readResponse (some d :: rest) acc =
            readResponse rest (acc ++ d) := by
          simp [readResponse, htd]
        rcases ih (acc ++ d) htd with ⟨h1, h2⟩ | ⟨n, hn, heq, htok, hmin⟩
        · left
          refine ⟨by rwa [hr], ?_⟩
          rw [hr, h2]; simp [accumRecv]
        · right
          refine ⟨n + 1, by simpa using Nat.succ_le_succ hn, ?_, by rwa [hr], ?_⟩
          · rw [hr, heq]; simp [accumRecv]
          · intro m hm
            cases m with
            | zero => simpa [accumRecv] using hacc
            | succ m' =>
              have := hmin m' (Nat.lt_of_succ_lt_succ hm)
              simpa [accumRecv] using this

theorem waitLoop_succ (resp : ℕ → Option (List Char)) (ty tz : Dec)
    (st f now : ℕ) :
    waitLoop resp ty tz st (f + 1) now =
      if now - st < TIMEOUT then
        if posMatch resp ty tz now then now
        else waitLoop resp ty tz st f (now + 1)
      else now := rfl

/-- Any sufficiently fuelled polling loop started at `now` exits as a
`WaitRun`: it polls every tick, and stops only on a match or on expiry
of the deadline measured from `routineStart`. -/
theorem waitLoop_run (resp : ℕ → Option (List Char)) (ty tz : Dec) :
    ∀ fuel now, routineStart + TIMEOUT ≤ now + fuel →
    WaitRun resp ty tz now (waitLoop resp ty tz routineStart fuel now) := by
  intro fuel
  induction fuel with
  | zero =>
    intro now hf
    have hr : waitLoop resp ty tz routineStart 0 now = now := rfl
    unfold WaitRun
    rw [hr]
    exact ⟨Nat.le_refl _, Or.inl (by omega),
      fun u h1 h2 => absurd h2 (by omega)⟩
  | succ f ih =>
    intro now hf
    by_cases hc : now - routineStart < TIMEOUT
    · cases hm : posMatch resp ty tz now with
      | true =>
        have hr : waitLoop resp ty tz routineStart (f + 1) now = now := by
          rw [waitLoop_succ, if_pos hc, if_pos hm]
        unfold WaitRun
        rw [hr]
        exact ⟨Nat.le_refl _, Or.inr hm,
          fun u h1 h2 => absurd h2 (by omega)⟩
      | false =>
        have hr : waitLoop resp ty tz routineStart (f + 1) now =
            waitLoop resp ty tz routineStart f (now + 1) := by
          rw [waitLoop_succ, if_pos hc, if_neg (by simp [hm])]
        obtain ⟨ha, hb, hd⟩ := ih (now + 1) (by omega)
        unfold WaitRun
        rw [hr]
        refine ⟨by omega, hb, ?_⟩
        intro u h1 h2
        rcases Nat.eq_or_lt_of_le h1 with he | hlt
        · rw [← he]
          exact ⟨hm, hc⟩
        · exact hd u hlt h2
    · have hr : waitLoop resp ty tz routineStart (f + 1) now = now := by
        rw [waitLoop_succ, if_neg hc]
      unfold WaitRun
      rw [hr]
      exact ⟨Nat.le_refl _, Or.inl (by omega),
        fun u h1 h2 => absurd h2 (by omega)⟩

theorem natDigitsAux_succ (fuel n : ℕ) :
    natDigitsAux (fuel + 1) n =
      if n < 10 then [decDigit n]
      else natDigitsAux fuel (n / 10) ++ [decDigit (n % 10)] := rfl

def digitChars : List Char :=
  [ '0', '1', '2', '3', '4', '5', '6', '7', '8', '9' ]

theorem decDigit_mem (n : ℕ) : decDigit n ∈ digitChars := by
  match n with
  | 0 => decide
  | 1 => decide
  | 2 => decide
  | 3 => decide
  | 4 => decide
  | 5 => decide
  | 6 => decide
  | 7 => decide
  | 8 => decide
  | n + 9 =>
    have h9 : decDigit (n + 9) = '9' := rfl
    rw [h9]
    decide

theorem natDigitsAux_mem (fuel : ℕ) :
    ∀ n, ∀ c ∈ natDigitsAux fuel n, c ∈ digitChars := by
  induction fuel with
  | zero => intro n c hc; simp [natDigitsAux] at hc
  | succ f ih =>
    intro n c hc
    rw [natDigitsAux_succ] at hc
    by_cases h : n < 10
    · rw [if_pos h] at hc
      simp only [List.mem_singleton] at hc
      rw [hc]
      exact decDigit_mem n
    · rw [if_neg h] at hc
      rcases List.mem_append.mp hc with h1 | h2
      · exact ih (n / 10) c h1
      · simp only [List.mem_singleton] at h2
        rw [h2]
        exact decDigit_mem (n % 10)

theorem digitChars_ne_F {c : Char} (h : c ∈ digitChars) : c ≠ 'F' := by
  intro he
  rw [he] at h
  exact absurd h (by decide)

theorem decStr_no_F (d : Dec) : ∀ c ∈ decStr d, c ≠ 'F' := by
  intro c hc
  simp only [decStr] at hc
  rcases List.mem_append.mp hc with h1 | h2
  · have : c = '-' := by
      rcases Decidable.em ((normDec d.m d.e).m < 0) with hneg | hneg
      · rw [if_pos hneg] at h1; simpa using h1
      · rw [if_neg hneg] at h1; simp at h1
    rw [this]; decide
  · have hmem :
        ∀ x ∈ padZeros (max 1 (normDec d.m d.e).e + 1)
            (natDigits ((normDec d.m d.e).m *
              pow10 (max 1 (normDec d.m d.e).e - (normDec d.m d.e).e)).natAbs),
          x ∈ '0' :: digitChars := by
      intro x hx
      rcases List.mem_append.mp hx with hx1 | hx2
      · simp only [List.eq_of_mem_replicate hx1]; decide
      · exact List.mem_cons_of_mem _ (natDigitsAux_mem _ _ x hx2)
    rcases List.mem_append.mp h2 with h3 | h4
    · have := hmem c ((List.take_sublist _ _).subset h3)
      rcases List.mem_cons.mp this with h5 | h5
      · rw [h5]; decide
      · exact digitChars_ne_F h5
    · rcases List.mem_cons.mp h4 with h5 | h5
      · rw [h5]; decide
      · have := hmem c ((List.drop_sublist _ _).subset h5)
        rcases List.mem_cons.mp this with h6 | h6
        · rw [h6]; decide
        · exact digitChars_ne_F h6

theorem pyFloatStr_no_F (f : PyFloat) : ∀ c ∈ pyFloatStr f, c ≠ 'F' := by
  intro c hc
  cases f with
  | finite d => exact decStr_no_F d c hc
  | inf =>
    intro he
    rw [he] at hc
    exact absurd hc (by decide)
  | neginf =>
    intro he
    rw [he] at hc
    exact absurd hc (by decide)
  | nan =>
    intro he
    rw [he] at hc
    exact absurd hc (by decide)

theorem intStr_no_F (n : ℤ) : ∀ c ∈ intStr n, c ≠ 'F' := by
  intro c hc
  simp only [intStr] at hc
  rcases List.mem_append.mp hc with h1 | h2
  · have : c = '-' := by
      rcases Decidable.em (n < 0) with hneg | hneg
      · rw [if_pos hneg] at h1; simpa using h1
      · rw [if_neg hneg] at h1; simp at h1
    rw [this]; decide
  · exact digitChars_ne_F (natDigitsAux_mem _ _ c h2)

theorem pyNumStr_no_F (v : PyNum) : ∀ c ∈ pyNumStr v, c ≠ 'F' := by
  intro c hc
  cases v with
  | int n => exact intStr_no_F n c hc
  | float f => exact pyFloatStr_no_F f c hc

theorem drop_append_len (u v : List Char) : (u ++ v).drop u.length = v := by
  induction u with
  | nil => rfl
  | cons x xs ih => simp [ih]

theorem take_append_len (u v : List Char) : (u ++ v).take u.length = u := by
  induction u with
  | nil => rfl
  | cons x xs ih => simp [ih]

/-- First occurrence of a pattern placed after a stretch free of the
pattern's head character. -/
theorem firstIdx_concat (p : Char) (pt pre suf : List Char)
    (h : ∀ ch ∈ pre, ch ≠ p) :
    firstIdx? (p :: pt) (pre ++ ((p :: pt) ++ suf)) = some pre.length := by
  induction pre with
  | nil =>
    show firstIdx? (p :: pt) ((p :: pt) ++ suf) = some 0
    have hs : startsWith (p :: pt) ((p :: pt) ++ suf) = true :=
      startsWith_self _ _
    rw [List.cons_append] at hs
    show firstIdx? (p :: pt) (p :: (pt ++ suf)) = some 0
    rw [firstIdx_cons, if_pos hs]
  | cons x xs ih =>
    have hx : x ≠ p := h x (List.mem_cons_self x xs)
    show firstIdx? (p :: pt) (x :: (xs ++ ((p :: pt) ++ suf))) =
      some (xs.length + 1)
    have hsw : startsWith (p :: pt) (x :: (xs ++ (p :: (pt ++ suf)))) =
        false := by
      have : (p == x) = false := by
        cases hpx : p == x with
        | false => rfl
        | true => exact absurd (beq_iff_eq.mp hpx).symm hx
      simp [startsWith, this]
    rw [firstIdx_cons, if_neg (by simp [hsw]),
      ih (fun ch hch => h ch (List.mem_cons_of_mem x hch))]
    rfl

theorem splitSep_cons (sep c : Char) (t : List Char) :
    splitSep sep (c :: t) =
      if c = sep then [] :: splitSep sep t
      else (c :: (splitSep sep t).headD []) :: (splitSep sep t).tail := rfl

theorem splitSep_single (sep : Char) (u : List Char)
    (h : ∀ ch ∈ u, ch ≠ sep) : splitSep sep u = [u] := by
  induction u with
  | nil => rfl
  | cons x xs ih =>
    rw [splitSep_cons, if_neg (h x (List.mem_cons_self x xs)),
      ih (fun ch hch => h ch (List.mem_cons_of_mem x hch))]
    rfl

theorem splitSep_concat (sep : Char) (u v : List Char)
    (h : ∀ ch ∈ u, ch ≠ sep) :
    splitSep sep (u ++ sep :: v) = u :: splitSep sep v := by
  induction u with
  | nil =>
    show splitSep sep (sep :: v) = [] :: splitSep sep v
    rw [splitSep_cons, if_pos rfl]
  | cons x xs ih =>
    show splitSep sep (x :: (xs ++ sep :: v)) = (x :: xs) :: splitSep sep v
    rw [splitSep_cons, if_neg (h x (List.mem_cons_self x xs)),
      ih (fun ch hch => h ch (List.mem_cons_of_mem x hch))]
    rfl

theorem sentOf_no_F (cmd : List Char) (h : ∀ ch ∈ cmd, ch ≠ 'F') :
    ∀ ch ∈ sentOf cmd, ch ≠ 'F' := by
  intro ch hch
  unfold sentOf at hch
  by_cases hl : cmd.getLast? = some '\n'
  · rw [if_pos hl] at hch
    exact h ch hch
  · rw [if_neg hl] at hch
    rcases List.mem_append.mp hch with h1 | h2
    · exact h ch h1
    · intro he
      rw [he] at h2
      exact absurd h2 (by decide)

/-! ## Claim theorems -/

/-- C2 counterexample: the realtime status query `?` is sent with an
appended line terminator — `send_command` normalizes every command, so
realtime single-byte controls are not transmitted without an added
delimiter as the claim states. -/
theorem c2_counterexample :
    (send_command true [ '?' ] []).writes = [[ '?', '\n' ]] := by decide

/-- C2 (amended): `send_command` appends `'\n'` to every command that
does not already end with one — realtime single-byte controls (`?`, `!`,
0x18) included — and transmits exactly that normalized command. -/
theorem c2_delimiter (cmd : List Char) (chunks : List (Option (List Char))) :
    (send_command true cmd chunks).writes =
      [if cmd.getLast? = some '\n' then cmd else cmd ++ [ '\n' ]] ∧
    (send_command true [ '?' ] chunks).writes = [[ '?', '\n' ]] ∧
    (send_command true [ '!' ] chunks).writes = [[ '!', '\n' ]] ∧
    (send_command true [ctrlX] chunks).writes = [[ctrlX, '\n' ]] :=
  ⟨rfl, rfl, rfl, rfl⟩

/-- C5: the telemetry parse of `get_current_position` fails silently —
when the `MPos:` marker is absent the guard yields `None`, and when any
step of the `try` block raises (`ValueError` from a failed conversion or
missing `'|'`, `IndexError` from a short list) the handler yields `None`;
the parse function is total, so no exception propagates. -/
theorem c5_parser_silent (s : List Char) :
    ((firstIdx? mposTok s).isSome = false → get_position_of s = none) ∧
    (∀ e, parsePosInner s = .error e → get_position_of s = none) := by
  constructor
  · intro h
    unfold get_position_of
    rw [if_neg (by simp [h])]
  · intro e he
    unfold get_position_of
    by_cases hg : (firstIdx? mposTok s).isSome = true
    · rw [if_pos hg, he]
    · rw [if_neg hg]

/-- C5 witness: the spec's own example — a frame with `WPos` but no
`MPos` yields no status. -/
theorem c5_witness :
    get_position_of (String.toList "<Alarm|WPos:1,2,3>") = none :=
  (c5_parser_silent _).1 (by decide)

/-- C6: with the connection closed, `send_command` returns `None` (the
`NotConnected` failure of the spec) and writes nothing on the wire, and
`run_test_routine` likewise refuses and issues no command. -/
theorem c6_closed_no_write (cmd : List Char)
    (chunks : List (Option (List Char))) (resp : ℕ → Option (List Char))
    (st0 : CtrlState) (ch ss ip sp : Dec) :
    send_command false cmd chunks = ⟨none, []⟩ ∧
    run_test_routine resp false st0 ch ss ip sp = ⟨[], false, 0, []⟩ :=
  ⟨rfl, rfl⟩

/-- C9 counterexample: the axes argument `"ZY"` is outside the claim's
set Y / Z / YZ, yet `home_axes` does not reject it — it issues `$H` and
returns the constant `True` (not the transaction's classification). -/
theorem c9_counterexample :
    home_axes true (String.toList "ZY") [] =
      (true, [String.toList "$H\n"]) := by decide

/-- C9 (amended): after uppercasing, `YZ` and `ZY` map to `$H`, `Y` to
`$HY`, `Z` to `$HZ`; the command is issued and the constant `True` is
returned regardless of the response; any other argument yields `False`
with no command issued. -/
theorem c9_home_mapping (connected : Bool) (axes : List Char)
    (chunks : List (Option (List Char))) :
    (pyUpper axes = String.toList "YZ" ∨ pyUpper axes = String.toList "ZY" →
      home_axes true axes chunks = (true, [String.toList "$H\n"])) ∧
    (pyUpper axes = String.toList "Y" →
      home_axes true axes chunks = (true, [String.toList "$HY\n"])) ∧
    (pyUpper axes = String.toList "Z" →
      home_axes true axes chunks = (true, [String.toList "$HZ\n"])) ∧
    (pyUpper axes ≠ String.toList "YZ" → pyUpper axes ≠ String.toList "ZY" →
      pyUpper axes ≠ String.toList "Y" → pyUpper axes ≠ String.toList "Z" →
      home_axes connected axes chunks = (false, [])) := by
  refine ⟨?_, ?_, ?_, ?_⟩
  · intro h
    unfold home_axes
    rw [if_pos h]
    simp [send_command, sentOf]
  · intro h
    unfold home_axes
    rw [if_neg (by rw [h]; decide), if_pos h]
    simp [send_command, sentOf]
  · intro h
    unfold home_axes
    rw [if_neg (by rw [h]; decide), if_neg (by rw [h]; decide), if_pos h]
    simp [send_command, sentOf]
  · intro h1 h2 h3 h4
    unfold home_axes
    rw [if_neg (fun hor => hor.elim h1 h2), if_neg h3, if_neg h4]

/-- C9 witness: a lowercase `yz` is accepted and mapped to `$H`; an
argument outside the table is rejected with nothing sent. -/
theorem c9_witness :
    home_axes true (String.toList "yz") [] =
      (true, [String.toList "$H\n"]) ∧
    home_axes false (String.toList "X") [] = (false, []) :=
  ⟨(c9_home_mapping true (String.toList "yz") []).1 (Or.inl (by decide)),
   (c9_home_mapping false (String.toList "X") []).2.2.2
     (by decide) (by decide) (by decide) (by decide)⟩

/-- C10: `set_feed_rate` is atomic on failure — a string that does not
convert leaves the stored feed rate unchanged and returns `False`, a
converting string replaces it; the initial stored value is the int
`1000`. -/
theorem c10_set_feed_atomic (st : CtrlState) (s : List Char) (f : PyFloat) :
    initState.feed = PyNum.int 1000 ∧
    (pyFloat? s = none → set_feed_rate st (.str s) = ((false, st), [])) ∧
    (pyFloat? s = some f →
      set_feed_rate st (.str s) = ((true, ⟨.float f⟩), [])) := by
  refine ⟨rfl, ?_, ?_⟩
  · intro h
    unfold set_feed_rate
    rw [show pyFloatOf (.str s) = none from h]
  · intro h
    unfold set_feed_rate
    rw [show pyFloatOf (.str s) = some f from h]

/-- C10 witness: `float("12,5")` raises, so the stored rate survives;
`float("443.33")` converts and replaces it. -/
theorem c10_witness :
    set_feed_rate initState (.str (String.toList "12,5")) =
      ((false, initState), []) ∧
    set_feed_rate initState (.str (String.toList "443.33")) =
      ((true, ⟨.float (.finite ⟨44333, 2⟩)⟩), []) :=
  ⟨(c10_set_feed_atomic initState (String.toList "12,5") .nan).2.1
      (by decide),
   (c10_set_feed_atomic initState (String.toList "443.33")
      (.finite ⟨44333, 2⟩)).2.2 (by decide)⟩

/-- C1: `send_command` returns the stripped accumulated response; when no
token ever arrives in the poll window the whole accumulated partial text
(possibly empty) is returned and classifies as `Timeout`; when a token
arrives, accumulation stops at the first poll whose chunk completed a
token; and the classification of the returned text follows the claim's
rule — `ok` before any `error` gives `Ok`, `error` with no preceding
`ok` gives `Err`.  (The code returns the raw text; `specClassify` is the
spec's reading of it.) -/
theorem c1_transaction (cmd : List Char)
    (chunks : List (Option (List Char))) :
    (send_command true cmd chunks).resp =
      some (pyStripL (readResponse chunks [])) ∧
    (hasToken (readResponse chunks []) = false →
      readResponse chunks [] = accumRecv chunks ∧
      specClassify (pyStripL (readResponse chunks [])) =
        .Timeout (pyStripL (accumRecv chunks))) ∧
    (hasToken (readResponse chunks []) = true →
      ∃ n, n ≤ chunks.length ∧
        readResponse chunks [] = accumRecv (chunks.take n) ∧
        ∀ m, m < n → hasToken (accumRecv (chunks.take m)) = false) ∧
    (okLeads (pyStripL (readResponse chunks [])) →
      specClassify (pyStripL (readResponse chunks [])) =
        .Ok (pyStripL (readResponse chunks []))) ∧
    (errLeads (pyStripL (readResponse chunks [])) →
      specClassify (pyStripL (readResponse chunks [])) =
        .Err (pyStripL (readResponse chunks []))) := by
  refine ⟨rfl, ?_, ?_, ?_, ?_⟩
  · intro h
    rcases readResponse_spec chunks [] (by decide) with ⟨h1, h2⟩ |
      ⟨n, hn, heq, htok, hmin⟩
    · have h2' : readResponse chunks [] = accumRecv chunks := by
        rw [h2]; rfl
      refine ⟨h2', ?_⟩
      have hok : (firstIdx? okTok (lowerL (readResponse chunks []))).isSome
          = false := by
        cases hb : (firstIdx? okTok
            (lowerL (readResponse chunks []))).isSome with
        | false => rfl
        | true =>
          exfalso
          unfold hasToken at h
          rw [hb] at h
          simp at h
      have herr : (firstIdx? errTok (lowerL (readResponse chunks []))).isSome
          = false := by
        cases hb : (firstIdx? errTok
            (lowerL (readResponse chunks []))).isSome with
        | false => rfl
        | true =>
          exfalso
          unfold hasToken at h
          rw [hb] at h
          simp at h
      have hok2 := firstIdx_strip_none okTok (readResponse chunks []) hok
      have herr2 := firstIdx_strip_none errTok (readResponse chunks []) herr
      unfold specClassify
      rw [hok2, herr2, h2']
    · rw [htok] at h
      exact absurd h (by decide)
  · intro h
    rcases readResponse_spec chunks [] (by decide) with ⟨h1, h2⟩ |
      ⟨n, hn, heq, htok, hmin⟩
    · rw [h1] at h
      exact absurd h (by decide)
    · refine ⟨n, hn, ?_, ?_⟩
      · rw [heq]; rfl
      · intro m hm
        have := hmin m hm
        simpa using this
  · intro hok
    obtain ⟨i, hi, hj⟩ := hok
    unfold specClassify
    rw [hi]
    cases herr : firstIdx? errTok (lowerL (pyStripL (readResponse chunks [])))
      with
    | none => rfl
    | some j =>
      have hlt : i < j := hj j herr
      simp [hlt]
  · intro herr
    obtain ⟨j, hj, hi⟩ := herr
    unfold specClassify
    rw [hj]
    cases hok : firstIdx? okTok (lowerL (pyStripL (readResponse chunks [])))
      with
    | none => rfl
    | some i =>
      have hlt : ¬ i < j := by
        have := hi i hok
        omega
      simp [hlt]

/-- C1 witness: on a stream whose third chunk completes an `ok`,
accumulation stops at that chunk's poll, the earlier prefixes hold no
token, and the stripped result classifies as `Ok`. -/
theorem c1_witness :
    (∃ n, n ≤ chunksW.length ∧
      readResponse chunksW [] = accumRecv (chunksW.take n) ∧
      ∀ m, m < n → hasToken (accumRecv (chunksW.take m)) = false) ∧
    specClassify (pyStripL (readResponse chunksW [])) =
      .Ok (pyStripL (readResponse chunksW [])) := by
  have h := c1_transaction [] chunksW
  refine ⟨h.2.2.1 (by decide), h.2.2.2.1 ⟨9, by decide, ?_⟩⟩
  intro j hj
  have hnone : firstIdx? errTok
      (lowerL (pyStripL (readResponse chunksW []))) = none := by decide
  rw [hnone] at hj
  exact Option.noConfusion hj

set_option maxRecDepth 100000 in
/-- C3 counterexample: with telemetry that never matches, the homing wait
exits when the 95 s deadline (taken at `routineStart`) expires, at tick
980 — and the approach, scan and return waits all exit at that same tick
980 without a single poll, although their targets were never reached.
Under the claim each of them would poll until its own deadline (980 +
950, and so on); `start_time` is set once and shared, so they do not. -/
theorem c3_counterexample :
    (run_test_routine (fun _ => none) true initState ⟨0, 0⟩ ⟨44333, 2⟩
        ⟨80, 0⟩ ⟨650, 0⟩).waitExits = [980, 980, 980, 980] ∧
    posMatch (fun _ => none) ⟨80, 0⟩ ⟨0, 0⟩ 980 = false :=
  ⟨by decide, by decide⟩

/-- C3 (amended): each of the four waits polls every tick from where the
previous step left off until exact position equality or until the single
shared 95 s deadline — measured from the `start_time` taken before the
homing wait, not from the step's own issuance — expires. -/
theorem c3_shared_deadline (resp : ℕ → Option (List Char))
    (st0 : CtrlState) (ch ss ip sp : Dec) :
    ∃ t1 t2 t3 t4,
      (run_test_routine resp true st0 ch ss ip sp).waitExits =
        [t1, t2, t3, t4] ∧
      routineStart ≤ t1 ∧
      WaitRun resp ⟨0, 0⟩ ⟨0, 0⟩ routineStart t1 ∧
      WaitRun resp ip ch t1 t2 ∧
      WaitRun resp sp ch t2 t3 ∧
      WaitRun resp ip ch t3 t4 := by
  have h1 := waitLoop_run resp ⟨0, 0⟩ ⟨0, 0⟩ (TIMEOUT + 1) routineStart
    (by omega)
  have h2 := waitLoop_run resp ip ch (TIMEOUT + 1)
    (waitLoop resp ⟨0, 0⟩ ⟨0, 0⟩ routineStart (TIMEOUT + 1) routineStart)
    (by have := h1.1; omega)
  have h3 := waitLoop_run resp sp ch (TIMEOUT + 1)
    (waitLoop resp ip ch routineStart (TIMEOUT + 1)
      (waitLoop resp ⟨0, 0⟩ ⟨0, 0⟩ routineStart (TIMEOUT + 1) routineStart))
    (by have := h1.1; have := h2.1; omega)
  have h4 := waitLoop_run resp ip ch (TIMEOUT + 1)
    (waitLoop resp sp ch routineStart (TIMEOUT + 1)
      (waitLoop resp ip ch routineStart (TIMEOUT + 1)
        (waitLoop resp ⟨0, 0⟩ ⟨0, 0⟩ routineStart (TIMEOUT + 1)
          routineStart)))
    (by have := h1.1; have := h2.1; have := h3.1; omega)
  exact ⟨_, _, _, _, rfl, h1.1, h1, h2, h3, h4⟩

set_option maxRecDepth 100000 in
/-- C3 witness for the amended claim: on a silent telemetry stream the
homing wait really polls — at its first tick the position does not match
and the shared deadline has not yet expired. -/
theorem c3_witness :
    posMatch (fun _ => none) ⟨0, 0⟩ ⟨0, 0⟩ routineStart = false ∧
    routineStart - routineStart < TIMEOUT := by
  obtain ⟨t1, t2, t3, t4, hEx, hle, hw1, hw2, hw3, hw4⟩ :=
    c3_shared_deadline (fun _ => none) initState ⟨0, 0⟩ ⟨44333, 2⟩
      ⟨80, 0⟩ ⟨650, 0⟩
  have hv : (run_test_routine (fun _ => none) true initState ⟨0, 0⟩
      ⟨44333, 2⟩ ⟨80, 0⟩ ⟨650, 0⟩).waitExits = [980, 980, 980, 980] := by
    decide
  rw [hv] at hEx
  injection hEx with ha hEx2
  obtain ⟨hw1a, hw1b, hw1c⟩ := hw1
  exact hw1c routineStart (Nat.le_refl _) (by rw [← ha]; decide)

/-- C8: whatever the telemetry stream delivers — including one on which
every wait loop exhausts its deadline — the routine never aborts: it
issues the full fixed command sequence (soft reset, home, approach move,
scan move, return move) and returns `True`. -/
theorem c8_routine_no_abort (resp : ℕ → Option (List Char))
    (st0 : CtrlState) (ch ss ip sp : Dec) :
    (run_test_routine resp true st0 ch ss ip sp).ret = true ∧
    (run_test_routine resp true st0 ch ss ip sp).cmds =
      [ [ctrlX, '\n'],
        String.toList "$H\n",
        sentOf (String.toList "G1 Y" ++ decStr ip ++ String.toList " F" ++
          decStr ⟨6000, 0⟩),
        sentOf (String.toList "G1 Y" ++ decStr sp ++ String.toList " F" ++
          decStr ss),
        sentOf (String.toList "G1 Y" ++ decStr ip ++ String.toList " F" ++
          decStr ⟨6000, 0⟩) ] :=
  ⟨rfl, rfl⟩

/-- C4 counterexample: a frame in which `MPos:` is followed by three
comma-separated numeric values but by no further `'|'` field — the parse
looks for `'|'` after the position list (`response.index('|',
pos_start)`), the lookup raises, and no position is produced, against
the claim's "for every frame containing MPos followed by comma-separated
numeric values".  (The code also extracts no state label from any
frame.) -/
theorem c4_counterexample :
    get_position_of (String.toList "<Idle|MPos:1.0,2.0,3.0>") = none ∧
    get_position_of (String.toList "<Idle|MPos:1.0,2.0,3.0|>") =
      some (.finite ⟨2, 0⟩, .finite ⟨3, 0⟩) :=
  ⟨by decide, by decide⟩

/-- C4 (amended): for every frame in which the first `MPos:` is followed
by a `'|'`-terminated list `a,b,c` (values free of `','` and `'|'`), the
2nd value parses to Y and the 3rd to Z, the 1st being skipped without
even a numeric conversion; positions only are produced (no state label);
the spec's concrete example yields Y = 10.0, Z = 5.0. -/
theorem c4_parse (label a b c rest : List Char)
    (hM : ∀ ch ∈ label, ch ≠ 'M')
    (ha : ∀ ch ∈ a, ch ≠ ',' ∧ ch ≠ '|')
    (hb : ∀ ch ∈ b, ch ≠ ',' ∧ ch ≠ '|')
    (hc : ∀ ch ∈ c, ch ≠ ',' ∧ ch ≠ '|') :
    get_position_of (('<' :: label) ++ [ '|' ] ++
        (mposTok ++ (a ++ [ ',' ] ++ b ++ [ ',' ] ++ c ++ [ '|' ] ++ rest)))
      =
      (match pyFloat? b, pyFloat? c with
       | some y, some z => some (y, z)
       | _, _ => none) ∧
    get_position_of (String.toList "<Idle|MPos:0.000,10.000,5.000|FS:0,0>")
      = some (.finite ⟨10, 0⟩, .finite ⟨5, 0⟩) := by
  refine ⟨?_, by decide⟩
  have hMcons : mposTok = 'M' :: String.toList "Pos:" := rfl
  have hpre : ∀ ch ∈ ('<' :: label) ++ [ '|' ], ch ≠ 'M' := by
    intro ch hch
    rcases List.mem_append.mp hch with h1 | h2
    · rcases List.mem_cons.mp h1 with h3 | h3
      · rw [h3]; decide
      · exact hM ch h3
    · rw [List.mem_singleton.mp h2]; decide
  have hidx : firstIdx? mposTok
      ((('<' :: label) ++ [ '|' ]) ++
        (mposTok ++ (a ++ [ ',' ] ++ b ++ [ ',' ] ++ c ++ [ '|' ] ++ rest)))
      = some (('<' :: label) ++ [ '|' ]).length := by
    rw [hMcons]
    exact firstIdx_concat 'M' (String.toList "Pos:") _ _ hpre
  have hlen5 : (('<' :: label) ++ [ '|' ]).length + 5 =
      ((('<' :: label) ++ [ '|' ]) ++ mposTok).length := by
    simp [mposTok]
  have hdrop :
      List.drop ((('<' :: label) ++ [ '|' ]).length + 5)
        ((('<' :: label) ++ [ '|' ]) ++
          (mposTok ++ (a ++ [ ',' ] ++ b ++ [ ',' ] ++ c ++ [ '|' ] ++ rest)))
        =
      a ++ [ ',' ] ++ b ++ [ ',' ] ++ c ++ [ '|' ] ++ rest := by
    rw [hlen5, ← List.append_assoc]
    exact drop_append_len _ _
  have hnopipe : ∀ ch ∈ a ++ [ ',' ] ++ b ++ [ ',' ] ++ c, ch ≠ '|' := by
    intro ch hch
    rcases List.mem_append.mp hch with h1 | h2
    · rcases List.mem_append.mp h1 with h3 | h4
      · rcases List.mem_append.mp h3 with h5 | h6
        · rcases List.mem_append.mp h5 with h7 | h8
          · exact (ha ch h7).2
          · rw [List.mem_singleton.mp h8]; decide
        · exact (hb ch h6).2
      · rw [List.mem_singleton.mp h4]; decide
    · exact (hc ch h2).2
  have hassoc : a ++ [ ',' ] ++ b ++ [ ',' ] ++ c ++ [ '|' ] ++ rest =
      (a ++ [ ',' ] ++ b ++ [ ',' ] ++ c) ++ (('|' :: []) ++ rest) := by
    simp [List.append_assoc]
  have hpipe : firstIdx? [ '|' ]
      (a ++ [ ',' ] ++ b ++ [ ',' ] ++ c ++ [ '|' ] ++ rest) =
      some (a ++ [ ',' ] ++ b ++ [ ',' ] ++ c).length := by
    rw [hassoc]
    exact firstIdx_concat '|' [] _ _ hnopipe
  have htake :
      (a ++ [ ',' ] ++ b ++ [ ',' ] ++ c ++ [ '|' ] ++ rest).take
        (a ++ [ ',' ] ++ b ++ [ ',' ] ++ c).length =
      a ++ [ ',' ] ++ b ++ [ ',' ] ++ c := by
    rw [hassoc]
    exact take_append_len _ _
  have hsplitarg : a ++ [ ',' ] ++ b ++ [ ',' ] ++ c =
      a ++ ',' :: (b ++ ',' :: c) := by
    simp [List.append_assoc]
  have hsplit : splitSep ',' (a ++ [ ',' ] ++ b ++ [ ',' ] ++ c) =
      [a, b, c] := by
    rw [hsplitarg, splitSep_concat ',' a _ (fun ch hch => (ha ch hch).1),
      splitSep_concat ',' b c (fun ch hch => (hb ch hch).1),
      splitSep_single ',' c (fun ch hch => (hc ch hch).1)]
  have hinner : parsePosInner
      ((('<' :: label) ++ [ '|' ]) ++
        (mposTok ++ (a ++ [ ',' ] ++ b ++ [ ',' ] ++ c ++ [ '|' ] ++ rest)))
      =
      (match pyFloat? b, pyFloat? c with
       | some y, some z => Except.ok (y, z)
       | none, _ => Except.error PyExc.valueErr
       | some _, none => Except.error PyExc.valueErr) := by
    unfold parsePosInner
    simp only [hidx, hdrop, hpipe, htake, hsplit, List.get?]
    cases hpb : pyFloat? b with
    | none => rfl
    | some y =>
      cases hpc : pyFloat? c with
      | none => rfl
      | some z => rfl
  unfold get_position_of
  rw [if_pos (by rw [hidx]; rfl), hinner]
  cases hpb : pyFloat? b with
  | none => rfl
  | some y =>
    cases hpc : pyFloat? c with
    | none => rfl
    | some z => rfl

/-- C4 witness: a frame with a non-numeric X value, a state label, and a
trailing field — the X value is skipped unparsed, the 2nd and 3rd values
land in Y and Z. -/
theorem c4_witness :
    get_position_of (String.toList "<Run|MPos:xx,2.5,3.25|F>") =
      some (.finite ⟨25, 1⟩, .finite ⟨325, 2⟩) := by
  have h := (c4_parse (String.toList "Run") (String.toList "xx")
    (String.toList "2.5") (String.toList "3.25") (String.toList "F>")
    (by decide) (by decide) (by decide) (by decide)).1
  have he : (('<' :: String.toList "Run") ++ [ '|' ] ++
      (mposTok ++ (String.toList "xx" ++ [ ',' ] ++ String.toList "2.5" ++
        [ ',' ] ++ String.toList "3.25" ++ [ '|' ] ++ String.toList "F>")))
      = String.toList "<Run|MPos:xx,2.5,3.25|F>" := by decide
  rw [he] at h
  rw [h]
  decide

/-- C7: `set_feed_rate` performs no wire traffic; a feed (`G1`) move
embeds ` F` followed by the stored feed rate's text; a rapid (`G0`) move
contains no `F` character at all, whatever rate is stored; and the
spec's example — store `"443.33"`, then move Y to 650 — produces a
command embedding `F443.33`. -/
theorem c7_feed_commands (st st0 : CtrlState) (axis : List Char)
    (dist rate : PyVal) (d : PyFloat) (chunks : List (Option (List Char)))
    (hax : pyUpper axis = [ 'Y' ] ∨ pyUpper axis = [ 'Z' ])
    (hd : pyFloatOf dist = some d) :
    (set_feed_rate st0 rate).2 = [] ∧
    (move_axis true st axis dist false chunks).2 =
      [sentOf (String.toList "G1 " ++ pyUpper axis ++ pyFloatStr d ++
        String.toList " F" ++ pyNumStr st.feed)] ∧
    (∀ w ∈ (move_axis true st axis dist true chunks).2, ∀ ch ∈ w,
      ch ≠ 'F') ∧
    (move_axis true (((set_feed_rate initState
        (.str (String.toList "443.33"))).1).2) [ 'Y' ] (.int 650) false
      []).2 = [String.toList "G1 Y650.0 F443.33\n"] := by
  refine ⟨?_, ?_, ?_, by decide⟩
  · cases hr : pyFloatOf rate <;> simp [set_feed_rate, hr]
  · simp only [move_axis]
    rw [if_pos hax]
    simp only [hd]
    rfl
  · have hwr : (move_axis true st axis dist true chunks).2 =
        [sentOf (String.toList "G0 " ++ pyUpper axis ++ pyFloatStr d)] := by
      simp only [move_axis]
      rw [if_pos hax]
      simp only [hd]
      rfl
    intro w hw ch hch
    rw [hwr] at hw
    rw [List.mem_singleton.mp hw] at hch
    refine sentOf_no_F _ ?_ ch hch
    intro x hx
    rcases List.mem_append.mp hx with h1 | h2
    · rcases List.mem_append.mp h1 with h3 | h4
      · intro he
        rw [he] at h3
        exact absurd h3 (by decide)
      · rcases hax with hy | hz
        · rw [hy] at h4
          intro he
          rw [he] at h4
          exact absurd h4 (by decide)
        · rw [hz] at h4
          intro he
          rw [he] at h4
          exact absurd h4 (by decide)
    · exact pyFloatStr_no_F d x h2

/-- C7 witness: a lowercase axis and a string distance are accepted; with
the initial feed rate (the int 1000) the feed move embeds `F1000`. -/
theorem c7_witness :
    (move_axis true initState (String.toList "y")
      (.str (String.toList "650")) false []).2 =
      [String.toList "G1 Y650.0 F1000\n"] := by
  have h := (c7_feed_commands initState initState (String.toList "y")
    (.str (String.toList "650")) (.int 5) (.finite ⟨650, 0⟩) []
    (Or.inl (by decide)) (by decide)).2.1
  rw [h]
  decide

end Grbl
